import Mathlib

/-!
Shallow embedding of the chess rules engine (src/board.rs, src/piece.rs,
src/position.rs, src/move.rs, src/game.rs, src/error.rs).

Conventions of the embedding:
* `usize` counters and coordinates become `Nat`; signed displacements become `Int`.
* A Rust panic (the `assert!` in `Position::new`, unsigned subtraction
  underflow in the path generators, `MoveCounter` decrement at zero) is
  modelled by `Option`: `none` is a panic, `some` is a normal return.
* `Result<T, CatchAllError>` becomes `Except CatchAllError T`.
* `HashMap<Position, Piece>` becomes an association list `Pieces` with
  `lookupP` / `insertP` / `removeP` mirroring `get` / `insert` / `remove`.
  `insert` replaces the value of an existing key, otherwise appends.
* Stateful `Board` methods take the board and return the (possibly mutated)
  board paired with the `Except` result, wrapped in `Option` for panics.
-/

namespace Chess

inductive Color where
  | White
  | Black
deriving DecidableEq, Repr

inductive Direction where
  | Up
  | Right
  | Down
  | Left
deriving DecidableEq, Repr

inductive Action where
  | Regular
  | Capture
deriving DecidableEq, Repr

inductive Move where
  | Straight (d : Direction) (steps : Nat) (a : Action)
  | Diagonal (d1 d2 : Direction) (steps : Nat) (a : Action)
  | Jump (a : Action)
  | Invalid
deriving DecidableEq, Repr

inductive CatchAllError where
  | NoLegalMoves
  | BadCastle
  | EmptyMoveCache
  | NoKing
  | InCheck
  | InvalidPath
  | BlockedPath
  | EmptyField
  | UnreachableField
  | InvalidTurn
deriving DecidableEq, Repr

structure Position where
  file : Nat
  rank : Nat
deriving DecidableEq, Repr

structure Distance where
  file : Int
  rank : Int
deriving DecidableEq, Repr

/-- `Position::valid`: both coordinates below 8. -/
def Position.valid (p : Position) : Bool :=
  decide (p.file < 8) && decide (p.rank < 8)

/-- `Position::distance_to`: signed displacement `other - self`. -/
def Position.distance_to (p other : Position) : Distance :=
  ⟨(other.file : Int) - (p.file : Int), (other.rank : Int) - (p.rank : Int)⟩

/-- `Move::new(from, dst, action)`: classify the displacement
(`Distance::new(&from, &to)` is `from.distance_to(&to)`, destination minus
origin).  The Rust match arms on `Distance` patterns are translated to a
guarded chain, tested in source order. -/
def Move.new (fr dst : Position) (action : Action) : Move :=
  let d := fr.distance_to dst
  let f := d.file
  let r := d.rank
  if f = 0 ∧ 1 ≤ r then .Straight .Up r.toNat action
  else if f = 0 ∧ r ≤ -1 then .Straight .Down r.natAbs action
  else if 1 ≤ f ∧ r = 0 then .Straight .Right f.toNat action
  else if f ≤ -1 ∧ r = 0 then .Straight .Left f.natAbs action
  else if 1 ≤ f ∧ 1 ≤ r ∧ f = r then .Diagonal .Up .Right r.toNat action
  else if 1 ≤ f ∧ r ≤ -1 ∧ f = -r then .Diagonal .Down .Right r.natAbs action
  else if f ≤ -1 ∧ 1 ≤ r ∧ f = -r then .Diagonal .Up .Left r.toNat action
  else if f ≤ -1 ∧ r ≤ -1 ∧ f = r then .Diagonal .Down .Left r.natAbs action
  else if (f = -2 ∨ f = 2) ∧ (r = -1 ∨ r = 1) then .Jump action
  else if (f = -1 ∨ f = 1) ∧ (r = -2 ∨ r = 2) then .Jump action
  else .Invalid

/-- Build the positions of a coordinate list, provided every coordinate
passes the `Position::new` assertion; `none` models the panic. -/
def mkPath (l : List (Nat × Nat)) : Option (List Position) :=
  if l.all (fun c => Position.valid ⟨c.1, c.2⟩) then
    some (l.map (fun c => ⟨c.1, c.2⟩))
  else none

/-- `Position::path_up`: interior squares `(file, rank+1) .. (file, rank+steps-1)`. -/
def Position.path_up (p : Position) (steps : Nat) : Option (List Position) :=
  mkPath ((List.range' (p.rank + 1) (steps - 1)).map (fun r => (p.file, r)))

/-- `Position::path_down`: `rank - steps` underflows (panics) when
`steps > rank`; otherwise the interior squares in descending rank order. -/
def Position.path_down (p : Position) (steps : Nat) : Option (List Position) :=
  if steps ≤ p.rank then
    mkPath (((List.range' (p.rank - steps + 1) (steps - 1)).reverse).map (fun r => (p.file, r)))
  else none

/-- `Position::path_right`. -/
def Position.path_right (p : Position) (steps : Nat) : Option (List Position) :=
  mkPath ((List.range' (p.file + 1) (steps - 1)).map (fun f => (f, p.rank)))

/-- `Position::path_left`: `file - steps` underflows when `steps > file`. -/
def Position.path_left (p : Position) (steps : Nat) : Option (List Position) :=
  if steps ≤ p.file then
    mkPath (((List.range' (p.file - steps + 1) (steps - 1)).reverse).map (fun f => (f, p.rank)))
  else none

/-- `Position::path_up_right`: squares `(file+i, rank+i)` for `i = 1 .. steps-1`. -/
def Position.path_up_right (p : Position) (steps : Nat) : Option (List Position) :=
  mkPath ((List.range' 1 (steps - 1)).map (fun i => (p.file + i, p.rank + i)))

/-- `Position::path_up_left`: `file - steps` underflows when `steps > file`;
squares `(file-i, rank+i)` for `i = 1 .. steps-1`. -/
def Position.path_up_left (p : Position) (steps : Nat) : Option (List Position) :=
  if steps ≤ p.file then
    mkPath ((List.range' 1 (steps - 1)).map (fun i => (p.file - i, p.rank + i)))
  else none

/-- `Position::path_down_right`: `rank - steps` underflows when `steps > rank`;
squares `(file+i, rank-i)` for `i = 1 .. steps-1`. -/
def Position.path_down_right (p : Position) (steps : Nat) : Option (List Position) :=
  if steps ≤ p.rank then
    mkPath ((List.range' 1 (steps - 1)).map (fun i => (p.file + i, p.rank - i)))
  else none

/-- `Position::path_down_left`: both subtractions may underflow;
squares `(file-i, rank-i)` for `i = 1 .. steps-1` (in the source's
reversed order, i.e. nearest square last reversed to first). -/
def Position.path_down_left (p : Position) (steps : Nat) : Option (List Position) :=
  if steps ≤ p.file ∧ steps ≤ p.rank then
    mkPath ((List.range' 1 (steps - 1)).map (fun i => (p.file - i, p.rank - i)))
  else none

/-- `Position::path`: dispatch on the classified move; `Jump` has no
interior squares; any other shape (including `Invalid`) is an
`InvalidPath` error. -/
def Position.path (p : Position) (mv : Move) : Option (Except CatchAllError (List Position)) :=
  match mv with
  | .Straight .Up steps _ => (p.path_up steps).map .ok
  | .Straight .Down steps _ => (p.path_down steps).map .ok
  | .Straight .Right steps _ => (p.path_right steps).map .ok
  | .Straight .Left steps _ => (p.path_left steps).map .ok
  | .Diagonal .Up .Right steps _ => (p.path_up_right steps).map .ok
  | .Diagonal .Up .Left steps _ => (p.path_up_left steps).map .ok
  | .Diagonal .Down .Right steps _ => (p.path_down_right steps).map .ok
  | .Diagonal .Down .Left steps _ => (p.path_down_left steps).map .ok
  | .Jump _ => some (.ok [])
  | _ => some (.error .InvalidPath)

inductive Piece where
  | Pawn (c : Color) (counter : Nat)
  | Knight (c : Color)
  | Bishop (c : Color)
  | Rook (c : Color) (counter : Nat)
  | Queen (c : Color)
  | King (c : Color) (counter : Nat)
deriving DecidableEq, Repr

/-- `Piece::color`. -/
def Piece.color : Piece → Color
  | .Pawn c _ => c
  | .Knight c => c
  | .Bishop c => c
  | .Rook c _ => c
  | .Queen c => c
  | .King c _ => c

/-- `Piece::update`: increment the move counter of Pawn / Rook / King. -/
def Piece.update : Piece → Piece
  | .Pawn c n => .Pawn c (n + 1)
  | .Rook c n => .Rook c (n + 1)
  | .King c n => .King c (n + 1)
  | p => p

/-- `Piece::revert`: decrement the move counter of Pawn / Rook / King;
decrementing a zero counter is a debug-mode overflow panic (`none`). -/
def Piece.revert : Piece → Option Piece
  | .Pawn c n => if n = 0 then none else some (.Pawn c (n - 1))
  | .Rook c n => if n = 0 then none else some (.Rook c (n - 1))
  | .King c n => if n = 0 then none else some (.King c (n - 1))
  | p => some p

/-- `Piece::can_reach_pawn` (the `Left | Right` or-patterns are split). -/
def Piece.can_reach_pawn (mv : Move) (color : Color) (counter : Nat) :
    Except CatchAllError Unit :=
  match mv, color, counter with
  | .Straight .Up 2 .Regular, .White, 0 => .ok ()
  | .Straight .Up 1 .Regular, .White, _ => .ok ()
  | .Diagonal .Up .Left 1 .Capture, .White, _ => .ok ()
  | .Diagonal .Up .Right 1 .Capture, .White, _ => .ok ()
  | .Straight .Down 2 .Regular, .Black, 0 => .ok ()
  | .Straight .Down 1 .Regular, .Black, _ => .ok ()
  | .Diagonal .Down .Left 1 .Capture, .Black, _ => .ok ()
  | .Diagonal .Down .Right 1 .Capture, .Black, _ => .ok ()
  | _, _, _ => .error .UnreachableField

/-- `Piece::can_reach_knight`. -/
def Piece.can_reach_knight (mv : Move) : Except CatchAllError Unit :=
  match mv with
  | .Jump _ => .ok ()
  | _ => .error .UnreachableField

/-- `Piece::can_reach_bishop`. -/
def Piece.can_reach_bishop (mv : Move) : Except CatchAllError Unit :=
  match mv with
  | .Diagonal _ _ _ _ => .ok ()
  | _ => .error .UnreachableField

/-- `Piece::can_reach_rook`. -/
def Piece.can_reach_rook (mv : Move) : Except CatchAllError Unit :=
  match mv with
  | .Straight _ _ _ => .ok ()
  | _ => .error .UnreachableField

/-- `Piece::can_reach_queen`. -/
def Piece.can_reach_queen (mv : Move) : Except CatchAllError Unit :=
  match mv with
  | .Straight _ _ _ => .ok ()
  | .Diagonal _ _ _ _ => .ok ()
  | _ => .error .UnreachableField

/-- `Piece::can_reach_king`: one step any direction, or the two-square
castling intent (counter 0, regular action). -/
def Piece.can_reach_king (mv : Move) (counter : Nat) : Except CatchAllError Unit :=
  match mv, counter with
  | .Straight _ 1 _, _ => .ok ()
  | .Diagonal _ _ 1 _, _ => .ok ()
  | .Straight .Left 2 .Regular, 0 => .ok ()
  | .Straight .Right 2 .Regular, 0 => .ok ()
  | _, _ => .error .UnreachableField

/-- `Piece::can_reach`: dispatch on the piece kind. -/
def Piece.can_reach (p : Piece) (mv : Move) : Except CatchAllError Unit :=
  match p with
  | .Pawn color counter => Piece.can_reach_pawn mv color counter
  | .Knight _ => Piece.can_reach_knight mv
  | .Bishop _ => Piece.can_reach_bishop mv
  | .Rook _ _ => Piece.can_reach_rook mv
  | .Queen _ => Piece.can_reach_queen mv
  | .King _ counter => Piece.can_reach_king mv counter

/-- `Piece::all_moves`: iterate `(0..8).zip(0..8)` (the 8 squares `(i,i)`);
for a pawn the target must be reachable both as a regular and as a capture
move, otherwise only as a regular move. -/
def Piece.all_moves (p : Piece) (fr : Position) : List Position :=
  (((List.range 8).zip (List.range 8)).filterMap (fun ij =>
    let dst : Position := ⟨ij.1, ij.2⟩
    match p with
    | .Pawn _ _ =>
      match p.can_reach (Move.new fr dst .Regular) with
      | .ok _ =>
        match p.can_reach (Move.new fr dst .Capture) with
        | .ok _ => some dst
        | .error _ => none
      | .error _ => none
    | _ =>
      match p.can_reach (Move.new fr dst .Regular) with
      | .ok _ => some dst
      | .error _ => none))

/-- The sparse piece placement: `HashMap<Position, Piece>` as an
association list.  Every operation below treats it purely as a key-value
map; iteration order stands in for the hash map's arbitrary order. -/
abbrev Pieces := List (Position × Piece)

/-- `HashMap::get`. -/
def lookupP : Pieces → Position → Option Piece
  | [], _ => none
  | (k, v) :: rest, q => if k = q then some v else lookupP rest q

/-- The list part of `HashMap::remove` (the removed value is `lookupP`):
drop the entry with this key. -/
def removeP : Pieces → Position → Pieces
  | [], _ => []
  | kv :: rest, q => if kv.1 = q then removeP rest q else kv :: removeP rest q

/-- The list part of `HashMap::insert` (the displaced value is `lookupP`):
replace the value of an existing key in place, otherwise append. -/
def insertP : Pieces → Position → Piece → Pieces
  | [], q, v => [(q, v)]
  | kv :: rest, q, v =>
    if kv.1 = q then (q, v) :: rest else kv :: insertP rest q v

/-- `MoveCache`: the single-slot undo record. -/
structure MoveCache where
  fr : Position
  dst : Position
  captured : Option Piece
deriving DecidableEq, Repr

/-- `Board`: placement, undo cache, en-passant target. -/
structure Board where
  pieces : Pieces
  cache : Option MoveCache
  enpassant : Option Position
deriving DecidableEq, Repr

/-- `Board::new`: the standard 32-piece starting layout, in the source's
insertion order. -/
def Board.init : Board where
  pieces :=
    [ (⟨0, 0⟩, .Rook .White 0), (⟨1, 0⟩, .Knight .White), (⟨2, 0⟩, .Bishop .White),
      (⟨3, 0⟩, .Queen .White), (⟨4, 0⟩, .King .White 0), (⟨5, 0⟩, .Bishop .White),
      (⟨6, 0⟩, .Knight .White), (⟨7, 0⟩, .Rook .White 0),
      (⟨0, 1⟩, .Pawn .White 0), (⟨1, 1⟩, .Pawn .White 0), (⟨2, 1⟩, .Pawn .White 0),
      (⟨3, 1⟩, .Pawn .White 0), (⟨4, 1⟩, .Pawn .White 0), (⟨5, 1⟩, .Pawn .White 0),
      (⟨6, 1⟩, .Pawn .White 0), (⟨7, 1⟩, .Pawn .White 0),
      (⟨0, 6⟩, .Pawn .Black 0), (⟨1, 6⟩, .Pawn .Black 0), (⟨2, 6⟩, .Pawn .Black 0),
      (⟨3, 6⟩, .Pawn .Black 0), (⟨4, 6⟩, .Pawn .Black 0), (⟨5, 6⟩, .Pawn .Black 0),
      (⟨6, 6⟩, .Pawn .Black 0), (⟨7, 6⟩, .Pawn .Black 0),
      (⟨0, 7⟩, .Rook .Black 0), (⟨1, 7⟩, .Knight .Black), (⟨2, 7⟩, .Bishop .Black),
      (⟨3, 7⟩, .Queen .Black), (⟨4, 7⟩, .King .Black 0), (⟨5, 7⟩, .Bishop .Black),
      (⟨6, 7⟩, .Knight .Black), (⟨7, 7⟩, .Rook .Black 0) ]
  cache := none
  enpassant := none

/-- `Board::at`. -/
def Board.atPos (b : Board) (pos : Position) : Except CatchAllError Piece :=
  match lookupP b.pieces pos with
  | some p => .ok p
  | none => .error .EmptyField

/-- `Board::king`: first piece in iteration order that is a king of the
given color. -/
def Board.king (b : Board) (color : Color) : Except CatchAllError (Position × Piece) :=
  match b.pieces.find? (fun kv =>
      match kv.2 with
      | .King c _ => decide (c = color)
      | _ => false) with
  | some kv => .ok kv
  | none => .error .NoKing

/-- `Board::piece_at`: the piece at `pos`, required to belong to `color`. -/
def Board.piece_at (b : Board) (pos : Position) (color : Color) :
    Except CatchAllError Piece :=
  match lookupP b.pieces pos with
  | none => .error .EmptyField
  | some p => if p.color = color then .ok p else .error .EmptyField

/-- `Board::action`: empty destination is `Regular`, an opposing piece is
`Capture`, an own piece is the `EmptyField` error. -/
def Board.action (b : Board) (pos : Position) (color : Color) :
    Except CatchAllError Action :=
  match lookupP b.pieces pos with
  | none => .ok .Regular
  | some p => if p.color ≠ color then .ok .Capture else .error .EmptyField

/-- `Board::has_piece`: succeed only when `pos` is unoccupied. -/
def Board.has_piece (b : Board) (pos : Position) : Except CatchAllError Unit :=
  if (lookupP b.pieces pos).isSome then .error .BlockedPath else .ok ()

/-- The `try_fold` of `Board::assess_move` over the interior squares. -/
def blockedAux (b : Board) : List Position → Except CatchAllError Unit
  | [] => .ok ()
  | q :: rest =>
    match b.has_piece q with
    | .error e => .error e
    | .ok _ => blockedAux b rest

/-- `Board::assess_move`: generate the path and fail on the first occupied
interior square. -/
def Board.assess_move (b : Board) (pos : Position) (mv : Move) :
    Option (Except CatchAllError Unit) :=
  match pos.path mv with
  | none => none
  | some (.error e) => some (.error e)
  | some (.ok l) => some (blockedAux b l)

/-- `Board::update`: the physical mutation.  The captured occupant of
`dst` is recorded first; the moved piece's counter is incremented; a pawn
reaching the far rank is replaced by a queen; the cache is overwritten. -/
def Board.update (b : Board) (fr dst : Position) :
    Board × Except CatchAllError Unit :=
  let captured := lookupP b.pieces dst
  match lookupP b.pieces fr with
  | none => (b, .error .EmptyField)
  | some piece0 =>
    let piece := piece0.update
    let ps1 := removeP b.pieces fr
    let ps2 :=
      match piece with
      | .Pawn .White _ =>
        if dst.rank = 7 then insertP ps1 dst (.Queen .White) else insertP ps1 dst piece
      | .Pawn .Black _ =>
        if dst.rank = 0 then insertP ps1 dst (.Queen .Black) else insertP ps1 dst piece
      | _ => insertP ps1 dst piece
    ({ pieces := ps2, cache := some ⟨fr, dst, captured⟩, enpassant := b.enpassant }, .ok ())

/-- `Board::revert`: undo the cached mutation; the moved piece's counter is
decremented (a potential panic) and the captured piece reinstated. -/
def Board.revert (b : Board) : Option (Board × Except CatchAllError Unit) :=
  match b.cache with
  | none => some (b, .error .EmptyMoveCache)
  | some c =>
    match lookupP b.pieces c.dst with
    | none => some (b, .error .EmptyField)
    | some piece =>
      match piece.revert with
      | none => none
      | some piece' =>
        let ps1 := removeP b.pieces c.dst
        let ps2 := insertP ps1 c.fr piece'
        let ps3 :=
          match c.captured with
          | some cap => insertP ps2 c.dst cap
          | none => ps2
        some ({ pieces := ps3, cache := none, enpassant := b.enpassant }, .ok ())

/-- The `any` scan of `Board::in_check`: the `&&` chain short-circuits, so
`assess_move` (which can panic) only runs when the color and reachability
tests pass. -/
def inCheckAux (b : Board) (color : Color) (pos : Position) :
    Pieces → Option (Except CatchAllError Bool)
  | [] => some (.ok false)
  | (k, v) :: rest =>
    if v.color ≠ color then
      match v.can_reach (Move.new k pos .Regular) with
      | .ok _ =>
        match b.assess_move k (Move.new k pos .Regular) with
        | none => none
        | some (.ok _) => some (.ok true)
        | some (.error _) => inCheckAux b color pos rest
      | .error _ => inCheckAux b color pos rest
    else inCheckAux b color pos rest

/-- `Board::in_check`: locate the king, then scan every opposing piece for
a `Regular`-action reachable, unobstructed move to the king's square. -/
def Board.in_check (b : Board) (color : Color) :
    Option (Except CatchAllError Bool) :=
  match b.king color with
  | .error e => some (.error e)
  | .ok (pos, _) => inCheckAux b color pos b.pieces

/-- `Board::resolve_check`: apply the move, test `in_check`, revert, and
only then inspect both results (`res?` comes after `revert()?`). -/
def Board.resolve_check (b : Board) (fr dst : Position) (color : Color) :
    Option (Board × Except CatchAllError Unit) :=
  match b.update fr dst with
  | (b1, .error e) => some (b1, .error e)
  | (b1, .ok _) =>
    match b1.in_check color with
    | none => none
    | some res =>
      match b1.revert with
      | none => none
      | some (b2, .error e) => some (b2, .error e)
      | some (b2, .ok _) =>
        match res with
        | .error e => some (b2, .error e)
        | .ok inCheck => some (b2, if inCheck then .error .InCheck else .ok ())

/-- The corner the castling rook starts from, per the table in
`Board::castle_rook` (junk value for the unreachable Up and Down rows). -/
def castleCorner (c : Color) (dir : Direction) : Position :=
  match c, dir with
  | .White, .Left => ⟨0, 0⟩
  | .White, .Right => ⟨7, 0⟩
  | .Black, .Left => ⟨0, 7⟩
  | .Black, .Right => ⟨7, 7⟩
  | _, _ => ⟨0, 0⟩

/-- The square the castling rook lands on, per the same table. -/
def castleLanding (c : Color) (dir : Direction) : Position :=
  match c, dir with
  | .White, .Left => ⟨3, 0⟩
  | .White, .Right => ⟨5, 0⟩
  | .Black, .Left => ⟨3, 7⟩
  | .Black, .Right => ⟨5, 7⟩
  | _, _ => ⟨0, 0⟩

/-- The rook relocation of `Board::castle_rook`: the removal happens
unconditionally (a non-matching occupant is removed and dropped); the
insert's displaced occupant turns success into `BadCastle`. -/
def castleRookGo (b : Board) (fr dst : Position) :
    Board × Except CatchAllError Unit :=
  match lookupP b.pieces fr with
  | some (.Rook c2 0) =>
    let ps1 := removeP b.pieces fr
    let old := lookupP ps1 dst
    let ps2 := insertP ps1 dst (.Rook c2 0)
    ({ b with pieces := ps2 },
      match old with
      | some _ => .error .BadCastle
      | none => .ok ())
  | _ => ({ b with pieces := removeP b.pieces fr }, .error .BadCastle)

/-- `Board::castle_rook`: table dispatch, `BadCastle` for Up / Down. -/
def Board.castle_rook (b : Board) (c : Color) (dir : Direction) :
    Board × Except CatchAllError Unit :=
  match c, dir with
  | .White, .Left => castleRookGo b ⟨0, 0⟩ ⟨3, 0⟩
  | .White, .Right => castleRookGo b ⟨7, 0⟩ ⟨5, 0⟩
  | .Black, .Left => castleRookGo b ⟨0, 7⟩ ⟨3, 7⟩
  | .Black, .Right => castleRookGo b ⟨7, 7⟩ ⟨5, 7⟩
  | _, .Up => (b, .error .BadCastle)
  | _, .Down => (b, .error .BadCastle)

/-- The `try_for_each` of `Board::resolve_castle`: run the apply / test /
revert simulation for each square in turn, stopping at the first error. -/
def castleChecksAux (fr : Position) (color : Color) :
    Board → List Position → Option (Board × Except CatchAllError Unit)
  | b, [] => some (b, .ok ())
  | b, q :: rest =>
    match b.resolve_check fr q color with
    | none => none
    | some (b', .error e) => some (b', .error e)
    | some (b', .ok _) => castleChecksAux fr color b' rest

/-- `Board::resolve_castle`: for an unmoved king's two-square regular run,
simulate the king on the interior square and on the start square, then
relocate the rook; anything else is a no-op. -/
def Board.resolve_castle (b : Board) (piece : Piece) (fr : Position) (mv : Move) :
    Option (Board × Except CatchAllError Unit) :=
  match piece, mv with
  | .King color 0, .Straight dir 2 .Regular =>
    match fr.path mv with
    | none => none
    | some (.error e) => some (b, .error e)
    | some (.ok interior) =>
      match castleChecksAux fr color b (interior ++ [fr]) with
      | none => none
      | some (b2, .error e) => some (b2, .error e)
      | some (b2, .ok _) => some (b2.castle_rook color dir)
  | _, _ => some (b, .ok ())

/-- The promotion condition of `Board::update`: a pawn landing on the far
rank for its color is replaced by a queen. -/
def promotes (p : Piece) (dst : Position) : Prop :=
  match p with
  | .Pawn .White _ => dst.rank = 7
  | .Pawn .Black _ => dst.rank = 0
  | _ => False

/-- The single interior square of a two-square straight run. -/
def castleTransit (fr : Position) (dir : Direction) : Position :=
  match dir with
  | .Up => ⟨fr.file, fr.rank + 1⟩
  | .Down => ⟨fr.file, fr.rank - 1⟩
  | .Right => ⟨fr.file + 1, fr.rank⟩
  | .Left => ⟨fr.file - 1, fr.rank⟩

/-- What a successful castling stage guarantees: a horizontal direction;
the corner square held a rook with move counter 0 which now stands on the
landing square while the corner is empty; and both the transit square and
the start square passed the apply / test / revert self-check simulation,
which preserved the placement and left the landing square free. -/
def castleSuccessSpec (b bend : Board) (c : Color) (dir : Direction) (fr : Position) : Prop :=
  (dir = .Left ∨ dir = .Right) ∧
  (∃ c2, lookupP b.pieces (castleCorner c dir) = some (.Rook c2 0) ∧
    lookupP bend.pieces (castleLanding c dir) = some (.Rook c2 0) ∧
    lookupP bend.pieces (castleCorner c dir) = none) ∧
  (∃ bm b2, Board.resolve_check b fr (castleTransit fr dir) c = some (bm, .ok ()) ∧
    Board.resolve_check bm fr fr c = some (b2, .ok ()) ∧
    (∀ q, lookupP b2.pieces q = lookupP b.pieces q) ∧
    lookupP b2.pieces (castleLanding c dir) = none)

/-- How the castling stage fails: either one of the two self-check
simulations fails and its error (`InCheck` for an attacked square) is
surfaced, or the failure is rook-related and the error is `BadCastle`. -/
def castleFailureSpec (b : Board) (c : Color) (dir : Direction) (fr : Position)
    (e : CatchAllError) : Prop :=
  (∃ bm, Board.resolve_check b fr (castleTransit fr dir) c = some (bm, .error e)) ∨
  (∃ bm b2, Board.resolve_check b fr (castleTransit fr dir) c = some (bm, .ok ()) ∧
    Board.resolve_check bm fr fr c = some (b2, .error e)) ∨
  e = .BadCastle

/-- The short-circuiting target scan inside `Board::resolve_nomoves`. -/
def nomovesTargets (fr : Position) (color : Color) :
    Board → List Position → Option (Board × Bool)
  | b, [] => some (b, false)
  | b, q :: rest =>
    match b.resolve_check fr q color with
    | none => none
    | some (b', .ok _) => some (b', true)
    | some (b', .error _) => nomovesTargets fr color b' rest

/-- The outer `filter` + `any` of `Board::resolve_nomoves`, iterating over
the snapshot (`self.pieces.clone()`) while the board itself mutates. -/
def nomovesAux (color : Color) :
    Board → Pieces → Option (Board × Bool)
  | b, [] => some (b, false)
  | b, (fr, piece) :: rest =>
    if piece.color = color then
      match nomovesTargets fr color b (piece.all_moves fr) with
      | none => none
      | some (b', true) => some (b', true)
      | some (b', false) => nomovesAux color b' rest
    else nomovesAux color b rest

/-- `Board::resolve_nomoves`: some own piece must have a target whose full
simulation succeeds, else `NoLegalMoves`. -/
def Board.resolve_nomoves (b : Board) (color : Color) :
    Option (Board × Except CatchAllError Unit) :=
  match nomovesAux color b b.pieces with
  | none => none
  | some (b', found) =>
    some (b', if found then .ok () else .error .NoLegalMoves)

/-- `Board::resolve_enpassant`: keyed only on the en-passant target, the
displacement from it to `dst`, and the mover's color (the mover's kind is
not inspected); relocates the passed-over piece onto `dst`. -/
def Board.resolve_enpassant (b : Board) (piece : Piece) (dst : Position) :
    Option (Board × Except CatchAllError Unit) :=
  let prev_pos : Option (Option Position) :=
    match b.enpassant with
    | none => some none
    | some pos =>
      let d := pos.distance_to dst
      if d.file = 0 ∧ d.rank = 1 ∧ piece.color = .White then
        -- dst.rank - 1 cannot underflow here since d.rank = 1 forces dst.rank ≥ 1;
        -- the Position::new assertion is still modelled.
        if Position.valid ⟨dst.file, dst.rank - 1⟩ then some (some ⟨dst.file, dst.rank - 1⟩)
        else none
      else if d.file = 0 ∧ d.rank = -1 ∧ piece.color = .Black then
        if Position.valid ⟨dst.file, dst.rank + 1⟩ then some (some ⟨dst.file, dst.rank + 1⟩)
        else none
      else some none
  match prev_pos with
  | none => none
  | some none => some (b, .ok ())
  | some (some pos) =>
    match lookupP b.pieces pos with
    | none => some (b, .error .EmptyField)
    | some ep =>
      some ({ b with pieces := insertP (removeP b.pieces pos) dst ep }, .ok ())

/-- `Board::enpassantable`: record `dst` after a pawn's double push, clear
the target otherwise. -/
def Board.enpassantable (b : Board) (piece : Piece) (mv : Move) (dst : Position) : Board :=
  match piece, mv with
  | .Pawn _ _, .Straight .Up 2 .Regular => { b with enpassant := some dst }
  | .Pawn _ _, .Straight .Down 2 .Regular => { b with enpassant := some dst }
  | _, _ => { b with enpassant := none }

/-- `Board::assess_turn`: the fixed validation pipeline, in source order;
every stage's mutation persists when a later stage fails. -/
def Board.assess_turn (b : Board) (color : Color) (fr dst : Position) :
    Option (Board × Except CatchAllError Unit) :=
  match b.resolve_nomoves color with
  | none => none
  | some (b1, .error e) => some (b1, .error e)
  | some (b1, .ok _) =>
    match b1.piece_at fr color with
    | .error e => some (b1, .error e)
    | .ok piece =>
      match b1.resolve_enpassant piece dst with
      | none => none
      | some (b2, .error e) => some (b2, .error e)
      | some (b2, .ok _) =>
        match b2.action dst color with
        | .error e => some (b2, .error e)
        | .ok act =>
          let mv := Move.new fr dst act
          match piece.can_reach mv with
          | .error e => some (b2, .error e)
          | .ok _ =>
            match b2.assess_move fr mv with
            | none => none
            | some (.error e) => some (b2, .error e)
            | some (.ok _) =>
              match b2.resolve_check fr dst color with
              | none => none
              | some (b3, .error e) => some (b3, .error e)
              | some (b3, .ok _) =>
                match b3.resolve_castle piece fr mv with
                | none => none
                | some (b4, .error e) => some (b4, .error e)
                | some (b4, .ok _) =>
                  some (b4.enpassantable piece mv dst, .ok ())

/-- `Board::advance`: validate, then physically move. -/
def Board.advance (b : Board) (color : Color) (fr dst : Position) :
    Option (Board × Except CatchAllError Unit) :=
  match b.assess_turn color fr dst with
  | none => none
  | some (b1, .error e) => some (b1, .error e)
  | some (b1, .ok _) =>
    match b1.update fr dst with
    | (b2, .error e) => some (b2, .error e)
    | (b2, .ok _) => some (b2, .ok ())

/-- `Turn`: the two-phase input state machine. -/
inductive Turn where
  | New (c : Color)
  | Select (c : Color) (pos : Position)
deriving DecidableEq, Repr

/-- `Game`: a board plus the turn state. -/
structure Game where
  board : Board
  turn : Turn
deriving DecidableEq, Repr

/-- `Game::new`. -/
def Game.init : Game :=
  { board := Board.init, turn := .New .White }

/-- `Game::select`: the chosen square must hold a piece of the active
color (read-only; board errors from `at` surface unchanged). -/
def Game.select (g : Game) (pos : Position) : Except CatchAllError Turn :=
  match g.turn with
  | .New color =>
    match g.board.atPos pos with
    | .error e => .error e
    | .ok p =>
      if p.color = color then .ok (.Select color pos) else .error .InvalidTurn
  | _ => .error .InvalidTurn

/-- `Game::play`: delegate to `Board::advance`; via `map_or` every board
error is replaced by `InvalidTurn`; on success the opponent is to move. -/
def Game.play (g : Game) (pos : Position) :
    Option (Board × Except CatchAllError Turn) :=
  match g.turn with
  | .Select color fr =>
    match g.board.advance color fr pos with
    | none => none
    | some (b', .error _) => some (b', .error .InvalidTurn)
    | some (b', .ok _) =>
      some (b', .ok (.New (match color with | .White => .Black | .Black => .White)))
  | _ => some (g.board, .error .InvalidTurn)

/-- `Game::advance`: dispatch on the turn state; `self.turn` is only
assigned when the transition function returns without error. -/
def Game.advance (g : Game) (pos : Position) :
    Option (Game × Except CatchAllError Unit) :=
  match g.turn with
  | .New _ =>
    match g.select pos with
    | .error e => some (g, .error e)
    | .ok t => some ({ g with turn := t }, .ok ())
  | .Select _ _ =>
    match g.play pos with
    | none => none
    | some (b', .error e) => some ({ g with board := b' }, .error e)
    | some (b', .ok t) => some ({ board := b', turn := t }, .ok ())

/-! Concrete positions used to settle the claims.  Files 0-7 are a-h and
ranks 0-7 are 1-8, so ⟨4,0⟩ is e1, ⟨3,4⟩ is d5, and so on. -/

/-- White king e1, white bishop a1, white pawn e2; black pawn d5 and black
king e8; the en-passant target is set to d5 (as after a black double push
d7-d5). -/
def boardC1 : Board :=
  ⟨[(⟨4, 0⟩, .King .White 0), (⟨0, 0⟩, .Bishop .White), (⟨4, 1⟩, .Pawn .White 0),
    (⟨3, 4⟩, .Pawn .Black 1), (⟨4, 7⟩, .King .Black 0)], none, some ⟨3, 4⟩⟩

/-- White king e1 with a black pawn on d2, diagonally adjacent to it. -/
def boardC2 : Board :=
  ⟨[(⟨4, 0⟩, .King .White 0), (⟨3, 1⟩, .Pawn .Black 0), (⟨4, 7⟩, .King .Black 0)], none, none⟩

/-- A lone white pawn on a7, one step from promotion. -/
def boardC3 : Board :=
  ⟨[(⟨0, 6⟩, .Pawn .White 2)], none, none⟩

/-- White king e1 and bishop a3 against a black king h8. -/
def boardC5 : Board :=
  ⟨[(⟨4, 0⟩, .King .White 0), (⟨0, 2⟩, .Bishop .White), (⟨7, 7⟩, .King .Black 0)], none, none⟩

/-- A game over `boardC5`, with the white king on e1 already selected. -/
def gameC5 : Game :=
  ⟨boardC5, .Select .White ⟨4, 0⟩⟩

/-- A black pawn on d5 with the en-passant target set to d5. -/
def boardC6 : Board :=
  ⟨[(⟨3, 4⟩, .Pawn .Black 1)], none, some ⟨3, 4⟩⟩

/-- Queenside castling position: white king e1 and rook a1 (both unmoved),
a white bishop on a3, black king h8; b1, c1, d1 empty, nothing attacked. -/
def boardC7Q : Board :=
  ⟨[(⟨4, 0⟩, .King .White 0), (⟨0, 0⟩, .Rook .White 0), (⟨0, 2⟩, .Bishop .White),
    (⟨7, 7⟩, .King .Black 0)], none, none⟩

/-- Kingside castling position with f1 attacked: white king e1 and rook h1
(both unmoved), a black rook on f8 aiming down the open f-file. -/
def boardC7K : Board :=
  ⟨[(⟨4, 0⟩, .King .White 0), (⟨7, 0⟩, .Rook .White 0), (⟨5, 7⟩, .Rook .Black 0),
    (⟨7, 7⟩, .King .Black 0)], none, none⟩

/-- The board state after the queenside castling stage succeeds on
`boardC7Q` (used to instantiate the castling-stage theorem's witness). -/
def boardC7Qafter : Board :=
  ((Board.resolve_castle boardC7Q (.King .White 0) ⟨4, 0⟩
      (.Straight .Left 2 .Regular)).map Prod.fst).getD boardC7Q

/-- The board after White's d2-d3 from the starting position. -/
def boardC8a : Board :=
  ((Board.advance Board.init .White ⟨3, 1⟩ ⟨3, 2⟩).map Prod.fst).getD Board.init

/-- Then the bishop c1-e3. -/
def boardC8b : Board :=
  ((Board.advance boardC8a .White ⟨2, 0⟩ ⟨4, 2⟩).map Prod.fst).getD boardC8a

/-- Then the queen d1-d2: b1 still holds the knight, c1 and d1 are empty. -/
def boardC8c : Board :=
  ((Board.advance boardC8b .White ⟨3, 0⟩ ⟨3, 1⟩).map Prod.fst).getD boardC8b

/-- The board after White's e2-e4 from the starting position (the
en-passant target is then e4, the pawn's own destination). -/
def boardC9 : Board :=
  ((Board.advance Board.init .White ⟨4, 1⟩ ⟨4, 3⟩).map Prod.fst).getD Board.init

/-! Theorems settling the claims. -/

/-- When every coordinate is in range, `mkPath` returns the square list
(no `Position::new` assertion fires) and every square is valid. -/
theorem mkPath_total (l : List (Nat × Nat)) (h : ∀ c ∈ l, c.1 < 8 ∧ c.2 < 8) :
    ∃ pl, mkPath l = some pl ∧ ∀ q ∈ pl, q.valid = true := by
  have hall : (l.all (fun c => Position.valid ⟨c.1, c.2⟩)) = true := by
    rw [List.all_eq_true]
    intro c hc
    have hc8 := h c hc
    simp only [Position.valid, Bool.and_eq_true, decide_eq_true_eq]
    exact hc8
  refine ⟨l.map (fun c => ⟨c.1, c.2⟩), ?_, ?_⟩
  · unfold mkPath
    rw [if_pos hall]
  · intro q hq
    rw [List.mem_map] at hq
    obtain ⟨c, hc, rfl⟩ := hq
    have hc8 := h c hc
    simp only [Position.valid, Bool.and_eq_true, decide_eq_true_eq]
    exact hc8

/-- A straight-up run whose end stays on the board has a total, valid path. -/
theorem path_up_total (p : Position) (steps : Nat) (a : Action)
    (hf : p.file < 8) (hr : p.rank + steps ≤ 8) :
    ∃ l, p.path (.Straight .Up steps a) = some (.ok l) ∧ ∀ q ∈ l, q.valid = true := by
  have hcoords : ∀ c ∈ (List.range' (p.rank + 1) (steps - 1)).map (fun r => (p.file, r)),
      c.1 < 8 ∧ c.2 < 8 := by
    intro c hc
    rw [List.mem_map] at hc
    obtain ⟨r, hr', rfl⟩ := hc
    rw [List.mem_range'_1] at hr'
    show p.file < 8 ∧ r < 8
    omega
  obtain ⟨pl, hpl, hv⟩ := mkPath_total _ hcoords
  refine ⟨pl, ?_, hv⟩
  show (p.path_up steps).map Except.ok = _
  unfold Position.path_up
  rw [hpl]
  rfl

/-- A straight-down run not longer than the origin's rank has a total,
valid path. -/
theorem path_down_total (p : Position) (steps : Nat) (a : Action)
    (hf : p.file < 8) (hr : p.rank < 8) (hs : steps ≤ p.rank) :
    ∃ l, p.path (.Straight .Down steps a) = some (.ok l) ∧ ∀ q ∈ l, q.valid = true := by
  have hcoords : ∀ c ∈ ((List.range' (p.rank - steps + 1) (steps - 1)).reverse).map
      (fun r => (p.file, r)), c.1 < 8 ∧ c.2 < 8 := by
    intro c hc
    rw [List.mem_map] at hc
    obtain ⟨r, hr', rfl⟩ := hc
    rw [List.mem_reverse, List.mem_range'_1] at hr'
    show p.file < 8 ∧ r < 8
    omega
  obtain ⟨pl, hpl, hv⟩ := mkPath_total _ hcoords
  refine ⟨pl, ?_, hv⟩
  show (p.path_down steps).map Except.ok = _
  unfold Position.path_down
  rw [if_pos hs, hpl]
  rfl

/-- A straight-right run whose end stays on the board has a total, valid path. -/
theorem path_right_total (p : Position) (steps : Nat) (a : Action)
    (hr : p.rank < 8) (hf : p.file + steps ≤ 8) :
    ∃ l, p.path (.Straight .Right steps a) = some (.ok l) ∧ ∀ q ∈ l, q.valid = true := by
  have hcoords : ∀ c ∈ (List.range' (p.file + 1) (steps - 1)).map (fun f => (f, p.rank)),
      c.1 < 8 ∧ c.2 < 8 := by
    intro c hc
    rw [List.mem_map] at hc
    obtain ⟨f, hf', rfl⟩ := hc
    rw [List.mem_range'_1] at hf'
    show f < 8 ∧ p.rank < 8
    omega
  obtain ⟨pl, hpl, hv⟩ := mkPath_total _ hcoords
  refine ⟨pl, ?_, hv⟩
  show (p.path_right steps).map Except.ok = _
  unfold Position.path_right
  rw [hpl]
  rfl

/-- A straight-left run not longer than the origin's file has a total,
valid path. -/
theorem path_left_total (p : Position) (steps : Nat) (a : Action)
    (hf : p.file < 8) (hr : p.rank < 8) (hs : steps ≤ p.file) :
    ∃ l, p.path (.Straight .Left steps a) = some (.ok l) ∧ ∀ q ∈ l, q.valid = true := by
  have hcoords : ∀ c ∈ ((List.range' (p.file - steps + 1) (steps - 1)).reverse).map
      (fun f => (f, p.rank)), c.1 < 8 ∧ c.2 < 8 := by
    intro c hc
    rw [List.mem_map] at hc
    obtain ⟨f, hf', rfl⟩ := hc
    rw [List.mem_reverse, List.mem_range'_1] at hf'
    show f < 8 ∧ p.rank < 8
    omega
  obtain ⟨pl, hpl, hv⟩ := mkPath_total _ hcoords
  refine ⟨pl, ?_, hv⟩
  show (p.path_left steps).map Except.ok = _
  unfold Position.path_left
  rw [if_pos hs, hpl]
  rfl

/-- An up-right diagonal whose end stays on the board has a total, valid path. -/
theorem path_up_right_total (p : Position) (steps : Nat) (a : Action)
    (hf : p.file + steps ≤ 8) (hr : p.rank + steps ≤ 8) :
    ∃ l, p.path (.Diagonal .Up .Right steps a) = some (.ok l) ∧ ∀ q ∈ l, q.valid = true := by
  have hcoords : ∀ c ∈ (List.range' 1 (steps - 1)).map (fun i => (p.file + i, p.rank + i)),
      c.1 < 8 ∧ c.2 < 8 := by
    intro c hc
    rw [List.mem_map] at hc
    obtain ⟨i, hi, rfl⟩ := hc
    rw [List.mem_range'_1] at hi
    show p.file + i < 8 ∧ p.rank + i < 8
    omega
  obtain ⟨pl, hpl, hv⟩ := mkPath_total _ hcoords
  refine ⟨pl, ?_, hv⟩
  show (p.path_up_right steps).map Except.ok = _
  unfold Position.path_up_right
  rw [hpl]
  rfl

/-- An up-left diagonal not longer than the file, ending on the board,
has a total, valid path. -/
theorem path_up_left_total (p : Position) (steps : Nat) (a : Action)
    (hf : p.file < 8) (hr : p.rank + steps ≤ 8) (hs : steps ≤ p.file) :
    ∃ l, p.path (.Diagonal .Up .Left steps a) = some (.ok l) ∧ ∀ q ∈ l, q.valid = true := by
  have hcoords : ∀ c ∈ (List.range' 1 (steps - 1)).map (fun i => (p.file - i, p.rank + i)),
      c.1 < 8 ∧ c.2 < 8 := by
    intro c hc
    rw [List.mem_map] at hc
    obtain ⟨i, hi, rfl⟩ := hc
    rw [List.mem_range'_1] at hi
    show p.file - i < 8 ∧ p.rank + i < 8
    omega
  obtain ⟨pl, hpl, hv⟩ := mkPath_total _ hcoords
  refine ⟨pl, ?_, hv⟩
  show (p.path_up_left steps).map Except.ok = _
  unfold Position.path_up_left
  rw [if_pos hs, hpl]
  rfl

/-- A down-right diagonal not longer than the rank, ending on the board,
has a total, valid path. -/
theorem path_down_right_total (p : Position) (steps : Nat) (a : Action)
    (hr : p.rank < 8) (hf : p.file + steps ≤ 8) (hs : steps ≤ p.rank) :
    ∃ l, p.path (.Diagonal .Down .Right steps a) = some (.ok l) ∧ ∀ q ∈ l, q.valid = true := by
  have hcoords : ∀ c ∈ (List.range' 1 (steps - 1)).map (fun i => (p.file + i, p.rank - i)),
      c.1 < 8 ∧ c.2 < 8 := by
    intro c hc
    rw [List.mem_map] at hc
    obtain ⟨i, hi, rfl⟩ := hc
    rw [List.mem_range'_1] at hi
    show p.file + i < 8 ∧ p.rank - i < 8
    omega
  obtain ⟨pl, hpl, hv⟩ := mkPath_total _ hcoords
  refine ⟨pl, ?_, hv⟩
  show (p.path_down_right steps).map Except.ok = _
  unfold Position.path_down_right
  rw [if_pos hs, hpl]
  rfl

/-- A down-left diagonal not longer than either coordinate has a total,
valid path. -/
theorem path_down_left_total (p : Position) (steps : Nat) (a : Action)
    (hf : p.file < 8) (hr : p.rank < 8) (hs1 : steps ≤ p.file) (hs2 : steps ≤ p.rank) :
    ∃ l, p.path (.Diagonal .Down .Left steps a) = some (.ok l) ∧ ∀ q ∈ l, q.valid = true := by
  have hcoords : ∀ c ∈ (List.range' 1 (steps - 1)).map (fun i => (p.file - i, p.rank - i)),
      c.1 < 8 ∧ c.2 < 8 := by
    intro c hc
    rw [List.mem_map] at hc
    obtain ⟨i, hi, rfl⟩ := hc
    rw [List.mem_range'_1] at hi
    show p.file - i < 8 ∧ p.rank - i < 8
    omega
  obtain ⟨pl, hpl, hv⟩ := mkPath_total _ hcoords
  refine ⟨pl, ?_, hv⟩
  show (p.path_down_left steps).map Except.ok = _
  unfold Position.path_down_left
  rw [if_pos (⟨hs1, hs2⟩ : steps ≤ p.file ∧ steps ≤ p.rank), hpl]
  rfl

set_option maxHeartbeats 4000000 in
/-- Claim C10: for any two valid squares and any action, if the classifier
does not return `Invalid` then the path generator returns (no underflow
panic, no assertion failure) a list of valid squares; and totality indeed
fails for a move not derived from such a pair: a straight-down run of 5
from rank 2 underflows. -/
theorem c10_path_total_valid :
    (∀ (fr dst : Position) (a : Action), fr.valid = true → dst.valid = true →
        Move.new fr dst a ≠ .Invalid →
        ∃ l, Position.path fr (Move.new fr dst a) = some (.ok l) ∧
          ∀ q ∈ l, q.valid = true) ∧
    Position.path ⟨4, 2⟩ (.Straight .Down 5 .Regular) = none := by
  constructor
  · intro fr dst a hfr hdst hne
    simp only [Position.valid, Bool.and_eq_true, decide_eq_true_eq] at hfr hdst
    obtain ⟨hf1, hf2⟩ := hfr
    obtain ⟨hd1, hd2⟩ := hdst
    have hchain : Move.new fr dst a =
        (if ((dst.file : Int) - fr.file) = 0 ∧ 1 ≤ ((dst.rank : Int) - fr.rank) then
          Move.Straight .Up ((dst.rank : Int) - fr.rank).toNat a
        else if ((dst.file : Int) - fr.file) = 0 ∧ ((dst.rank : Int) - fr.rank) ≤ -1 then
          Move.Straight .Down ((dst.rank : Int) - fr.rank).natAbs a
        else if 1 ≤ ((dst.file : Int) - fr.file) ∧ ((dst.rank : Int) - fr.rank) = 0 then
          Move.Straight .Right ((dst.file : Int) - fr.file).toNat a
        else if ((dst.file : Int) - fr.file) ≤ -1 ∧ ((dst.rank : Int) - fr.rank) = 0 then
          Move.Straight .Left ((dst.file : Int) - fr.file).natAbs a
        else if 1 ≤ ((dst.file : Int) - fr.file) ∧ 1 ≤ ((dst.rank : Int) - fr.rank) ∧
            ((dst.file : Int) - fr.file) = ((dst.rank : Int) - fr.rank) then
          Move.Diagonal .Up .Right ((dst.rank : Int) - fr.rank).toNat a
        else if 1 ≤ ((dst.file : Int) - fr.file) ∧ ((dst.rank : Int) - fr.rank) ≤ -1 ∧
            ((dst.file : Int) - fr.file) = -((dst.rank : Int) - fr.rank) then
          Move.Diagonal .Down .Right ((dst.rank : Int) - fr.rank).natAbs a
        else if ((dst.file : Int) - fr.file) ≤ -1 ∧ 1 ≤ ((dst.rank : Int) - fr.rank) ∧
            ((dst.file : Int) - fr.file) = -((dst.rank : Int) - fr.rank) then
          Move.Diagonal .Up .Left ((dst.rank : Int) - fr.rank).toNat a
        else if ((dst.file : Int) - fr.file) ≤ -1 ∧ ((dst.rank : Int) - fr.rank) ≤ -1 ∧
            ((dst.file : Int) - fr.file) = ((dst.rank : Int) - fr.rank) then
          Move.Diagonal .Down .Left ((dst.rank : Int) - fr.rank).natAbs a
        else if (((dst.file : Int) - fr.file) = -2 ∨ ((dst.file : Int) - fr.file) = 2) ∧
            (((dst.rank : Int) - fr.rank) = -1 ∨ ((dst.rank : Int) - fr.rank) = 1) then
          Move.Jump a
        else if (((dst.file : Int) - fr.file) = -1 ∨ ((dst.file : Int) - fr.file) = 1) ∧
            (((dst.rank : Int) - fr.rank) = -2 ∨ ((dst.rank : Int) - fr.rank) = 2) then
          Move.Jump a
        else Move.Invalid) := rfl
    by_cases h1 : ((dst.file : Int) - fr.file) = 0 ∧ 1 ≤ ((dst.rank : Int) - fr.rank)
    · have hmv : Move.new fr dst a = Move.Straight .Up ((dst.rank : Int) - fr.rank).toNat a := by
        rw [hchain, if_pos h1]
      rw [hmv]
      exact path_up_total fr ((dst.rank : Int) - fr.rank).toNat a hf1 (by omega)
    by_cases h2 : ((dst.file : Int) - fr.file) = 0 ∧ ((dst.rank : Int) - fr.rank) ≤ -1
    · have hmv : Move.new fr dst a = Move.Straight .Down ((dst.rank : Int) - fr.rank).natAbs a := by
        rw [hchain, if_neg h1, if_pos h2]
      rw [hmv]
      exact path_down_total fr ((dst.rank : Int) - fr.rank).natAbs a hf1 hf2 (by omega)
    by_cases h3 : 1 ≤ ((dst.file : Int) - fr.file) ∧ ((dst.rank : Int) - fr.rank) = 0
    · have hmv : Move.new fr dst a = Move.Straight .Right ((dst.file : Int) - fr.file).toNat a := by
        rw [hchain, if_neg h1, if_neg h2, if_pos h3]
      rw [hmv]
      exact path_right_total fr ((dst.file : Int) - fr.file).toNat a hf2 (by omega)
    by_cases h4 : ((dst.file : Int) - fr.file) ≤ -1 ∧ ((dst.rank : Int) - fr.rank) = 0
    · have hmv : Move.new fr dst a = Move.Straight .Left ((dst.file : Int) - fr.file).natAbs a := by
        rw [hchain, if_neg h1, if_neg h2, if_neg h3, if_pos h4]
      rw [hmv]
      exact path_left_total fr ((dst.file : Int) - fr.file).natAbs a hf1 hf2 (by omega)
    by_cases h5 : 1 ≤ ((dst.file : Int) - fr.file) ∧ 1 ≤ ((dst.rank : Int) - fr.rank) ∧ ((dst.file : Int) - fr.file) = ((dst.rank : Int) - fr.rank)
    · have hmv : Move.new fr dst a = Move.Diagonal .Up .Right ((dst.rank : Int) - fr.rank).toNat a := by
        rw [hchain, if_neg h1, if_neg h2, if_neg h3, if_neg h4, if_pos h5]
      rw [hmv]
      exact path_up_right_total fr ((dst.rank : Int) - fr.rank).toNat a (by omega) (by omega)
    by_cases h6 : 1 ≤ ((dst.file : Int) - fr.file) ∧ ((dst.rank : Int) - fr.rank) ≤ -1 ∧ ((dst.file : Int) - fr.file) = -((dst.rank : Int) - fr.rank)
    · have hmv : Move.new fr dst a = Move.Diagonal .Down .Right ((dst.rank : Int) - fr.rank).natAbs a := by
        rw [hchain, if_neg h1, if_neg h2, if_neg h3, if_neg h4, if_neg h5, if_pos h6]
      rw [hmv]
      exact path_down_right_total fr ((dst.rank : Int) - fr.rank).natAbs a hf2 (by omega) (by omega)
    by_cases h7 : ((dst.file : Int) - fr.file) ≤ -1 ∧ 1 ≤ ((dst.rank : Int) - fr.rank) ∧ ((dst.file : Int) - fr.file) = -((dst.rank : Int) - fr.rank)
    · have hmv : Move.new fr dst a = Move.Diagonal .Up .Left ((dst.rank : Int) - fr.rank).toNat a := by
        rw [hchain, if_neg h1, if_neg h2, if_neg h3, if_neg h4, if_neg h5, if_neg h6, if_pos h7]
      rw [hmv]
      exact path_up_left_total fr ((dst.rank : Int) - fr.rank).toNat a hf1 (by omega) (by omega)
    by_cases h8 : ((dst.file : Int) - fr.file) ≤ -1 ∧ ((dst.rank : Int) - fr.rank) ≤ -1 ∧ ((dst.file : Int) - fr.file) = ((dst.rank : Int) - fr.rank)
    · have hmv : Move.new fr dst a = Move.Diagonal .Down .Left ((dst.rank : Int) - fr.rank).natAbs a := by
        rw [hchain, if_neg h1, if_neg h2, if_neg h3, if_neg h4, if_neg h5, if_neg h6, if_neg h7, if_pos h8]
      rw [hmv]
      exact path_down_left_total fr ((dst.rank : Int) - fr.rank).natAbs a hf1 hf2 (by omega) (by omega)
    by_cases h9 : (((dst.file : Int) - fr.file) = -2 ∨ ((dst.file : Int) - fr.file) = 2) ∧ (((dst.rank : Int) - fr.rank) = -1 ∨ ((dst.rank : Int) - fr.rank) = 1)
    · have hmv : Move.new fr dst a = Move.Jump a := by
        rw [hchain, if_neg h1, if_neg h2, if_neg h3, if_neg h4, if_neg h5, if_neg h6, if_neg h7, if_neg h8, if_pos h9]
      rw [hmv]
      exact ⟨[], rfl, by simp⟩
    by_cases h10 : (((dst.file : Int) - fr.file) = -1 ∨ ((dst.file : Int) - fr.file) = 1) ∧ (((dst.rank : Int) - fr.rank) = -2 ∨ ((dst.rank : Int) - fr.rank) = 2)
    · have hmv : Move.new fr dst a = Move.Jump a := by
        rw [hchain, if_neg h1, if_neg h2, if_neg h3, if_neg h4, if_neg h5, if_neg h6, if_neg h7, if_neg h8, if_neg h9, if_pos h10]
      rw [hmv]
      exact ⟨[], rfl, by simp⟩
    have hmv : Move.new fr dst a = Move.Invalid := by
      rw [hchain, if_neg h1, if_neg h2, if_neg h3, if_neg h4, if_neg h5, if_neg h6, if_neg h7, if_neg h8, if_neg h9, if_neg h10]
    exact absurd hmv hne
  · rfl

/-- Witness for claim C10 at a concrete input: the double push e2-e4. -/
theorem c10_path_total_valid_witness :
    ∃ l, Position.path ⟨4, 1⟩ (Move.new ⟨4, 1⟩ ⟨4, 3⟩ .Regular) = some (.ok l) ∧
      ∀ q ∈ l, q.valid = true :=
  c10_path_total_valid.1 ⟨4, 1⟩ ⟨4, 3⟩ .Regular (by decide) (by decide) (by decide)

/-- Claim C1: a failed `advance` is claimed to leave the board state
unchanged.  The code violates this: on `boardC1`, White's `advance` of the
e2 pawn to d6 fails with `UnreachableField`, yet the black pawn that stood
on d5 before the call has been relocated to d6 by the en-passant
resolution stage, which mutates before the later validation stages run. -/
theorem c1_failed_advance_mutates :
    lookupP boardC1.pieces ⟨3, 4⟩ = some (.Pawn .Black 1) ∧
    lookupP boardC1.pieces ⟨3, 5⟩ = none ∧
    (Board.advance boardC1 .White ⟨4, 1⟩ ⟨3, 5⟩).map
        (fun x => (x.2, lookupP x.1.pieces ⟨3, 4⟩, lookupP x.1.pieces ⟨3, 5⟩)) =
      some (.error .UnreachableField, none, some (.Pawn .Black 1)) := by
  refine ⟨rfl, rfl, ?_⟩
  rfl

/-- Claim C2: `in_check(color)` is claimed true iff an opposing piece has a
capability-accepted regular-or-capture move to the king's square with a
clear path.  On `boardC2` the black pawn on d2 reaches the white king's
square e1 with an accepted capture move whose interior path is empty, yet
`in_check(White)` reports `false`: the scan only ever tests moves built
with the `Regular` action, so pawn capture attacks are invisible. -/
theorem c2_pawn_check_missed :
    Board.in_check boardC2 .White = some (.ok false) ∧
    (Piece.Pawn .Black 0).can_reach (Move.new ⟨3, 1⟩ ⟨4, 0⟩ .Capture) = .ok () ∧
    Position.path ⟨3, 1⟩ (Move.new ⟨3, 1⟩ ⟨4, 0⟩ .Capture) = some (.ok []) := by
  exact ⟨rfl, rfl, rfl⟩

/-- Claim C3: `update` followed by `revert` is claimed to restore the
exact prior state including the moved piece's kind.  On `boardC3`
(white pawn a7, counter 2) the update a7-a8 promotes to a queen and the
revert puts a `Queen` back on a7: the pawn's kind and counter are lost. -/
theorem c3_promotion_roundtrip_fails :
    lookupP boardC3.pieces ⟨0, 6⟩ = some (.Pawn .White 2) ∧
    (Board.update boardC3 ⟨0, 6⟩ ⟨0, 7⟩).2 = .ok () ∧
    ((Board.update boardC3 ⟨0, 6⟩ ⟨0, 7⟩).1.revert).map
        (fun x => (x.2, lookupP x.1.pieces ⟨0, 6⟩)) =
      some (.ok (), some (.Queen .White)) := by
  exact ⟨rfl, rfl, rfl⟩

/-- Claim C4: `all_moves` is claimed to return exactly the capability-
accepted subset of all 64 squares.  It iterates `(0..8).zip(0..8)`, i.e.
only the eight squares `(i,i)`: a white rook on a1 gets an empty list even
though a6 is accepted; and the pawn branch demands a target reachable as
both regular and capture, so a pawn's list is always empty although e3 and
e4 are accepted from e2. -/
theorem c4_all_moves_misses_squares :
    Piece.all_moves (.Rook .White 0) ⟨0, 0⟩ = [] ∧
    (Piece.Rook .White 0).can_reach (Move.new ⟨0, 0⟩ ⟨0, 5⟩ .Regular) = .ok () ∧
    Position.valid ⟨0, 5⟩ = true ∧
    Piece.all_moves (.Pawn .White 0) ⟨4, 1⟩ = [] ∧
    (Piece.Pawn .White 0).can_reach (Move.new ⟨4, 1⟩ ⟨4, 2⟩ .Regular) = .ok () ∧
    Position.valid ⟨4, 2⟩ = true := by
  exact ⟨rfl, rfl, rfl, rfl, rfl, rfl⟩

/-- Claim C5: when `Board::advance` fails, `Game::advance` is claimed to
return that same error.  On `gameC5` the board rejects e1-e4 with
`UnreachableField`, but the game returns `InvalidTurn`: `Game::play` maps
every board error to `InvalidTurn` via `map_or`.  (The turn does stay
unresolved, as the claim says.) -/
theorem c5_error_not_surfaced :
    (Board.advance boardC5 .White ⟨4, 0⟩ ⟨4, 3⟩).map Prod.snd =
      some (.error .UnreachableField) ∧
    (Game.advance gameC5 ⟨4, 3⟩).map (fun x => (x.2, x.1.turn)) =
      some (.error .InvalidTurn, .Select .White ⟨4, 0⟩) ∧
    CatchAllError.InvalidTurn ≠ CatchAllError.UnreachableField := by
  refine ⟨rfl, rfl, ?_⟩
  decide

/-- Claim C6: the en-passant relocation is claimed to fire only when the
moving piece is a pawn, and to change nothing for non-pawn movers.  On
`boardC6` (en-passant target d5) the resolution stage run for a white
knight moving to d6 removes the black pawn from d5 and relocates it onto
d6: the stage tests only the mover's color, never its kind. -/
theorem c6_enpassant_nonpawn_fires :
    lookupP boardC6.pieces ⟨3, 4⟩ = some (.Pawn .Black 1) ∧
    lookupP boardC6.pieces ⟨3, 5⟩ = none ∧
    (Board.resolve_enpassant boardC6 (.Knight .White) ⟨3, 5⟩).map
        (fun x => (x.2, lookupP x.1.pieces ⟨3, 4⟩, lookupP x.1.pieces ⟨3, 5⟩)) =
      some (.ok (), none, some (.Pawn .Black 1)) := by
  exact ⟨rfl, rfl, rfl⟩

/-- Claim C7, counterexample.  Two facts against the claim as stated: on
`boardC7Q` the queenside castle e1-c1 succeeds and the rook lands on d1 —
three files in from its corner a1, not two; and on `boardC7K`, where the
transit square f1 is attacked by the black f8 rook, the castle attempt
e1-g1 fails with `InCheck`, not with `BadCastle`. -/
theorem c7_counterexample :
    (Board.advance boardC7Q .White ⟨4, 0⟩ ⟨2, 0⟩).map
        (fun x => (x.2, lookupP x.1.pieces ⟨3, 0⟩, lookupP x.1.pieces ⟨2, 0⟩,
          lookupP x.1.pieces ⟨0, 0⟩)) =
      some (.ok (), some (.Rook .White 0), some (.King .White 1), none) ∧
    (Board.advance boardC7K .White ⟨4, 0⟩ ⟨6, 0⟩).map Prod.snd =
      some (.error .InCheck) ∧
    CatchAllError.InCheck ≠ CatchAllError.BadCastle := by
  refine ⟨rfl, rfl, ?_⟩
  decide

/-- Claim C8: no piece is claimed ever to move through or onto an
own-occupied square in any state reachable from the initial board.  The
reachable sequence d2-d3, Bc1-e3, Qd1-d2, then the queenside castle
e1-c1 succeeds while the white knight still stands on b1: the rook passes
from a1 over the occupied b1 to d1, because castling checks only the
king's transit squares, never the rook's path. -/
theorem c8_castle_through_own_piece :
    (Board.advance Board.init .White ⟨3, 1⟩ ⟨3, 2⟩).map Prod.snd = some (.ok ()) ∧
    (Board.advance boardC8a .White ⟨2, 0⟩ ⟨4, 2⟩).map Prod.snd = some (.ok ()) ∧
    (Board.advance boardC8b .White ⟨3, 0⟩ ⟨3, 1⟩).map Prod.snd = some (.ok ()) ∧
    lookupP boardC8c.pieces ⟨1, 0⟩ = some (.Knight .White) ∧
    (Board.advance boardC8c .White ⟨4, 0⟩ ⟨2, 0⟩).map
        (fun x => (x.2, lookupP x.1.pieces ⟨1, 0⟩, lookupP x.1.pieces ⟨3, 0⟩,
          lookupP x.1.pieces ⟨2, 0⟩, lookupP x.1.pieces ⟨0, 0⟩)) =
      some (.ok (), some (.Knight .White), some (.Rook .White 0),
        some (.King .White 1), none) := by
  exact ⟨rfl, rfl, rfl, rfl, rfl⟩

/-- Claim C9, counterexample: after the successful e2-e4 the claim says
the consecutive board-level call e4-e5 fails with `UnreachableField`.  It
fails with `EmptyField` instead: the en-passant target is e4 (the pawn's
own destination), so the resolution stage relocates the moving pawn itself
onto e5 and the destination then holds an own-color piece. -/
theorem c9_counterexample :
    (Board.advance Board.init .White ⟨4, 1⟩ ⟨4, 3⟩).map Prod.snd = some (.ok ()) ∧
    boardC9.enpassant = some ⟨4, 3⟩ ∧
    (Board.advance boardC9 .White ⟨4, 3⟩ ⟨4, 4⟩).map Prod.snd =
      some (.error .EmptyField) ∧
    CatchAllError.EmptyField ≠ CatchAllError.UnreachableField := by
  refine ⟨rfl, rfl, rfl, ?_⟩
  decide

/-- Claim C9, amended: from the starting position White's e2-e4 succeeds
(double push with counter 0), and the same pawn's later double push e4-e6
fails with `UnreachableField`, since a double push is only accepted at
counter 0. -/
theorem c9_double_push_gating :
    (Board.advance Board.init .White ⟨4, 1⟩ ⟨4, 3⟩).map Prod.snd = some (.ok ()) ∧
    (Board.advance Board.init .White ⟨4, 1⟩ ⟨4, 3⟩).map
        (fun x => lookupP x.1.pieces ⟨4, 3⟩) = some (some (.Pawn .White 1)) ∧
    (Board.advance boardC9 .White ⟨4, 3⟩ ⟨4, 5⟩).map Prod.snd =
      some (.error .UnreachableField) := by
  exact ⟨rfl, rfl, rfl⟩

/-! Association-list lemmas for the placement map. -/

theorem lookupP_removeP_self (l : Pieces) (q : Position) :
    lookupP (removeP l q) q = none := by
  induction l with
  | nil => rfl
  | cons kv rest ih =>
    by_cases hk : kv.1 = q
    · simpa [removeP, hk] using ih
    · simpa [removeP, lookupP, hk] using ih

theorem lookupP_removeP_ne (l : Pieces) (q q' : Position) (h : q' ≠ q) :
    lookupP (removeP l q) q' = lookupP l q' := by
  induction l with
  | nil => rfl
  | cons kv rest ih =>
    by_cases hk : kv.1 = q
    · rw [removeP, if_pos hk, ih, lookupP, if_neg]
      rw [hk]
      exact fun hc => h hc.symm
    · by_cases hk' : kv.1 = q'
      · rw [removeP, if_neg hk, lookupP, if_pos hk', lookupP, if_pos hk']
      · rw [removeP, if_neg hk, lookupP, if_neg hk', lookupP, if_neg hk', ih]

theorem lookupP_insertP_self (l : Pieces) (q : Position) (v : Piece) :
    lookupP (insertP l q v) q = some v := by
  induction l with
  | nil => simp [insertP, lookupP]
  | cons kv rest ih =>
    by_cases hk : kv.1 = q
    · rw [insertP, if_pos hk, lookupP, if_pos rfl]
    · rw [insertP, if_neg hk, lookupP, if_neg hk, ih]

theorem lookupP_insertP_ne (l : Pieces) (q q' : Position) (v : Piece) (h : q' ≠ q) :
    lookupP (insertP l q v) q' = lookupP l q' := by
  induction l with
  | nil =>
    have hqq : q ≠ q' := fun hc => h hc.symm
    simp [insertP, lookupP, hqq]
  | cons kv rest ih =>
    by_cases hk : kv.1 = q
    · rw [insertP, if_pos hk, lookupP, if_neg (fun hc => h hc.symm), lookupP, if_neg]
      rw [hk]
      exact fun hc => h hc.symm
    · by_cases hk' : kv.1 = q'
      · rw [insertP, if_neg hk, lookupP, if_pos hk', lookupP, if_pos hk']
      · rw [insertP, if_neg hk, lookupP, if_neg hk', lookupP, if_neg hk', ih]

/-- Incrementing and then decrementing a move counter restores the piece
(the increment makes the counter positive, so the decrement cannot panic). -/
theorem Piece.update_revert (p : Piece) : p.update.revert = some p := by
  cases p <;> simp [Piece.update, Piece.revert]

/-- The remove / insert / remove / insert shuffle of an apply-then-revert
cycle, read through `lookupP`: the intermediate value `pu` is irrelevant,
the origin gets `p` back and the destination is cleared. -/
theorem lookupP_roundtrip (ps : Pieces) (fr dst : Position) (p pu : Piece) (q : Position) :
    lookupP (insertP (removeP (insertP (removeP ps fr) dst pu) dst) fr p) q =
      (if q = fr then some p else if q = dst then none else lookupP ps q) := by
  by_cases hqf : q = fr
  · subst hqf
    rw [lookupP_insertP_self, if_pos rfl]
  · rw [lookupP_insertP_ne _ _ _ _ hqf, if_neg hqf]
    by_cases hqd : q = dst
    · subst hqd
      rw [lookupP_removeP_self, if_pos rfl]
    · rw [lookupP_removeP_ne _ _ _ hqd, lookupP_insertP_ne _ _ _ _ hqd,
        lookupP_removeP_ne _ _ _ hqf, if_neg hqd]

/-- `Board::update` on an occupied origin, spelled out, for a move that
does not promote. -/
theorem update_ok (b : Board) (fr dst : Position) (p : Piece) (cap : Option Piece)
    (hp : lookupP b.pieces fr = some p) (hc : lookupP b.pieces dst = cap)
    (hnp : ¬ promotes p dst) :
    b.update fr dst =
      ({ pieces := insertP (removeP b.pieces fr) dst p.update,
         cache := some ⟨fr, dst, cap⟩,
         enpassant := b.enpassant }, .ok ()) := by
  subst hc
  unfold Board.update
  rw [hp]
  cases p with
  | Pawn c n =>
    cases c with
    | White =>
      have h7 : ¬ dst.rank = 7 := hnp
      simp [Piece.update, h7]
    | Black =>
      have h0 : ¬ dst.rank = 0 := hnp
      simp [Piece.update, h0]
  | Knight c => simp [Piece.update]
  | Bishop c => simp [Piece.update]
  | Rook c n => simp [Piece.update]
  | Queen c => simp [Piece.update]
  | King c n => simp [Piece.update]

/-- `Board::resolve_check` (whatever its verdict) restores the piece
placement and the en-passant target, provided the moved piece does not
promote; only the cache differs afterwards. -/
theorem resolve_check_preserves (b : Board) (fr dst : Position) (color : Color)
    (p : Piece) (hp : lookupP b.pieces fr = some p) (hnp : ¬ promotes p dst)
    (b' : Board) (r : Except CatchAllError Unit)
    (h : b.resolve_check fr dst color = some (b', r)) :
    (∀ q, lookupP b'.pieces q = lookupP b.pieces q) ∧ b'.enpassant = b.enpassant := by
  rcases hcap : lookupP b.pieces dst with _ | cap
  · -- no piece on the destination
    unfold Board.resolve_check at h
    rw [update_ok b fr dst p none hp hcap hnp] at h
    dsimp only at h
    have hrev : (Board.revert
        ⟨insertP (removeP b.pieces fr) dst p.update, some ⟨fr, dst, none⟩, b.enpassant⟩) =
        some (⟨insertP (removeP (insertP (removeP b.pieces fr) dst p.update) dst) fr p,
          none, b.enpassant⟩, .ok ()) := by
      unfold Board.revert
      dsimp only
      rw [lookupP_insertP_self]
      dsimp only
      rw [Piece.update_revert]
    have hfinal : ∀ q,
        lookupP (insertP (removeP (insertP (removeP b.pieces fr) dst p.update) dst) fr p) q
          = lookupP b.pieces q := by
      intro q
      rw [lookupP_roundtrip]
      by_cases hqf : q = fr
      · rw [if_pos hqf, hqf, hp]
      · rw [if_neg hqf]
        by_cases hqd : q = dst
        · rw [if_pos hqd, hqd, hcap]
        · rw [if_neg hqd]
    rcases hic : Board.in_check
        ⟨insertP (removeP b.pieces fr) dst p.update, some ⟨fr, dst, none⟩, b.enpassant⟩
        color with _ | res
    · rw [hic] at h
      simp at h
    · rw [hic] at h
      dsimp only at h
      rw [hrev] at h
      dsimp only at h
      rcases res with e | ic
      · simp only [Option.some.injEq, Prod.mk.injEq] at h
        obtain ⟨hb', _⟩ := h
        subst hb'
        exact ⟨hfinal, rfl⟩
      · cases ic
        · simp only [Bool.false_eq_true, if_false, Option.some.injEq, Prod.mk.injEq] at h
          obtain ⟨hb', _⟩ := h
          subst hb'
          exact ⟨hfinal, rfl⟩
        · simp only [if_true, Option.some.injEq, Prod.mk.injEq] at h
          obtain ⟨hb', _⟩ := h
          subst hb'
          exact ⟨hfinal, rfl⟩
  · -- a piece on the destination is captured and reinstated
    unfold Board.resolve_check at h
    rw [update_ok b fr dst p (some cap) hp hcap hnp] at h
    dsimp only at h
    have hrev : (Board.revert
        ⟨insertP (removeP b.pieces fr) dst p.update, some ⟨fr, dst, some cap⟩, b.enpassant⟩) =
        some (⟨insertP (insertP (removeP (insertP (removeP b.pieces fr) dst p.update) dst) fr p) dst cap,
          none, b.enpassant⟩, .ok ()) := by
      unfold Board.revert
      dsimp only
      rw [lookupP_insertP_self]
      dsimp only
      rw [Piece.update_revert]
    have hfinal : ∀ q,
        lookupP (insertP (insertP (removeP (insertP (removeP b.pieces fr) dst p.update) dst) fr p) dst cap) q
          = lookupP b.pieces q := by
      intro q
      by_cases hqd : q = dst
      · rw [hqd, lookupP_insertP_self, hcap]
      · rw [lookupP_insertP_ne _ _ _ _ hqd, lookupP_roundtrip, if_neg hqd]
        by_cases hqf : q = fr
        · rw [if_pos hqf, hqf, hp]
        · rw [if_neg hqf]
    rcases hic : Board.in_check
        ⟨insertP (removeP b.pieces fr) dst p.update, some ⟨fr, dst, some cap⟩, b.enpassant⟩
        color with _ | res
    · rw [hic] at h
      simp at h
    · rw [hic] at h
      dsimp only at h
      rw [hrev] at h
      dsimp only at h
      rcases res with e | ic
      · simp only [Option.some.injEq, Prod.mk.injEq] at h
        obtain ⟨hb', _⟩ := h
        subst hb'
        exact ⟨hfinal, rfl⟩
      · cases ic
        · simp only [Bool.false_eq_true, if_false, Option.some.injEq, Prod.mk.injEq] at h
          obtain ⟨hb', _⟩ := h
          subst hb'
          exact ⟨hfinal, rfl⟩
        · simp only [if_true, Option.some.injEq, Prod.mk.injEq] at h
          obtain ⟨hb', _⟩ := h
          subst hb'
          exact ⟨hfinal, rfl⟩

/-- A straight run's path is never a `some (.error _)`: it either panics
(`none`) or succeeds. -/
theorem path_straight_no_error (fr : Position) (dir : Direction) (steps : Nat)
    (a : Action) (e : CatchAllError) :
    Position.path fr (.Straight dir steps a) ≠ some (.error e) := by
  intro hc
  cases dir
  · have hc' : (fr.path_up steps).map Except.ok = some (.error e) := hc
    rcases hv : fr.path_up steps with _ | l <;> rw [hv] at hc' <;> simp at hc'
  · have hc' : (fr.path_right steps).map Except.ok = some (.error e) := hc
    rcases hv : fr.path_right steps with _ | l <;> rw [hv] at hc' <;> simp at hc'
  · have hc' : (fr.path_down steps).map Except.ok = some (.error e) := hc
    rcases hv : fr.path_down steps with _ | l <;> rw [hv] at hc' <;> simp at hc'
  · have hc' : (fr.path_left steps).map Except.ok = some (.error e) := hc
    rcases hv : fr.path_left steps with _ | l <;> rw [hv] at hc' <;> simp at hc'

/-- The interior of a successful two-square straight run is exactly the
single transit square. -/
theorem path_straight_two (fr : Position) (dir : Direction) (a : Action)
    (l : List Position)
    (h : Position.path fr (.Straight dir 2 a) = some (.ok l)) :
    l = [castleTransit fr dir] := by
  cases dir
  · -- Up
    have h' : (mkPath [(fr.file, fr.rank + 1)]).map Except.ok = some (.ok l) := h
    unfold mkPath at h'
    split at h'
    · simp only [Option.map_some', Option.some.injEq, Except.ok.injEq] at h'
      rw [← h']
      rfl
    · simp at h'
  · -- Right
    have h' : (mkPath [(fr.file + 1, fr.rank)]).map Except.ok = some (.ok l) := h
    unfold mkPath at h'
    split at h'
    · simp only [Option.map_some', Option.some.injEq, Except.ok.injEq] at h'
      rw [← h']
      rfl
    · simp at h'
  · -- Down
    have h' : ((if 2 ≤ fr.rank then mkPath [(fr.file, fr.rank - 2 + 1)] else none).map
        Except.ok) = some (.ok l) := h
    split at h'
    · next hg =>
      unfold mkPath at h'
      split at h'
      · simp only [Option.map_some', Option.some.injEq, Except.ok.injEq] at h'
        rw [← h']
        have he : fr.rank - 2 + 1 = fr.rank - 1 := by omega
        show [(⟨fr.file, fr.rank - 2 + 1⟩ : Position)] = [⟨fr.file, fr.rank - 1⟩]
        rw [he]
      · simp at h'
    · simp at h'
  · -- Left
    have h' : ((if 2 ≤ fr.file then mkPath [(fr.file - 2 + 1, fr.rank)] else none).map
        Except.ok) = some (.ok l) := h
    split at h'
    · next hg =>
      unfold mkPath at h'
      split at h'
      · simp only [Option.map_some', Option.some.injEq, Except.ok.injEq] at h'
        rw [← h']
        have he : fr.file - 2 + 1 = fr.file - 1 := by omega
        show [(⟨fr.file - 2 + 1, fr.rank⟩ : Position)] = [⟨fr.file - 1, fr.rank⟩]
        rw [he]
      · simp at h'
    · simp at h'

/-- What the rook-relocation step guarantees: on success the corner held a
rook with move counter 0, the landing square was free, and the rook now
stands there with the corner empty; every failure is `BadCastle`. -/
theorem castleRookGo_spec (b : Board) (fr dst : Position) (bend : Board)
    (r : Except CatchAllError Unit) (hne : dst ≠ fr)
    (h : castleRookGo b fr dst = (bend, r)) :
    (r = .ok () → ∃ c2, lookupP b.pieces fr = some (.Rook c2 0) ∧
      lookupP b.pieces dst = none ∧
      lookupP bend.pieces dst = some (.Rook c2 0) ∧
      lookupP bend.pieces fr = none) ∧
    (∀ e, r = .error e → e = .BadCastle) := by
  unfold castleRookGo at h
  rcases hlk : lookupP b.pieces fr with _ | pc
  · rw [hlk] at h
    dsimp only at h
    injection h with h1 h2
    subst h2
    exact ⟨fun hok => Except.noConfusion hok,
      fun e he => by injection he with he'; exact he'.symm⟩
  · rw [hlk] at h
    cases pc with
    | Rook c2 n =>
      cases n with
      | zero =>
        dsimp only at h
        rcases hold : lookupP (removeP b.pieces fr) dst with _ | oldp
        · rw [hold] at h
          dsimp only at h
          injection h with h1 h2
          subst h1
          subst h2
          refine ⟨fun _ => ⟨c2, rfl, ?_, ?_, ?_⟩, fun e he => Except.noConfusion he⟩
          · rw [← lookupP_removeP_ne b.pieces fr dst hne]
            exact hold
          · exact lookupP_insertP_self _ _ _
          · rw [lookupP_insertP_ne _ _ _ _ (Ne.symm hne)]
            exact lookupP_removeP_self _ _
        · rw [hold] at h
          dsimp only at h
          injection h with h1 h2
          subst h2
          exact ⟨fun hok => Except.noConfusion hok,
            fun e he => by injection he with he'; exact he'.symm⟩
      | succ m =>
        dsimp only at h
        injection h with h1 h2
        subst h2
        exact ⟨fun hok => Except.noConfusion hok,
          fun e he => by injection he with he'; exact he'.symm⟩
    | Pawn c0 n =>
      dsimp only at h
      injection h with h1 h2
      subst h2
      exact ⟨fun hok => Except.noConfusion hok,
        fun e he => by injection he with he'; exact he'.symm⟩
    | Knight c0 =>
      dsimp only at h
      injection h with h1 h2
      subst h2
      exact ⟨fun hok => Except.noConfusion hok,
        fun e he => by injection he with he'; exact he'.symm⟩
    | Bishop c0 =>
      dsimp only at h
      injection h with h1 h2
      subst h2
      exact ⟨fun hok => Except.noConfusion hok,
        fun e he => by injection he with he'; exact he'.symm⟩
    | Queen c0 =>
      dsimp only at h
      injection h with h1 h2
      subst h2
      exact ⟨fun hok => Except.noConfusion hok,
        fun e he => by injection he with he'; exact he'.symm⟩
    | King c0 n =>
      dsimp only at h
      injection h with h1 h2
      subst h2
      exact ⟨fun hok => Except.noConfusion hok,
        fun e he => by injection he with he'; exact he'.symm⟩

/-- Claim C7 (amended): for an unmoved king's two-square horizontal run,
whenever the castling stage returns, a success means the transit square
and the start square both passed the self-check simulation (which left the
placement unchanged), the corresponding corner held a rook with move
counter 0 and the landing square — two files in from the corner on the
kingside, three on the queenside — was free and now holds that rook with
the corner empty; a failure is either a self-check simulation error
(`InCheck` for an attacked square) surfaced unchanged, or `BadCastle` for
the rook-related conditions. -/
theorem c7_castle_stage_spec (b bend : Board) (c : Color) (dir : Direction)
    (fr : Position) (r : Except CatchAllError Unit)
    (hk : lookupP b.pieces fr = some (.King c 0))
    (h : b.resolve_castle (.King c 0) fr (.Straight dir 2 .Regular) = some (bend, r)) :
    (r = .ok () → castleSuccessSpec b bend c dir fr) ∧
    (∀ e, r = .error e → castleFailureSpec b c dir fr e) := by
  have h' : (match Position.path fr (.Straight dir 2 .Regular) with
      | none => none
      | some (.error e) => some (b, Except.error e)
      | some (.ok interior) =>
        match castleChecksAux fr c b (interior ++ [fr]) with
        | none => none
        | some (b2, .error e) => some (b2, Except.error e)
        | some (b2, .ok _) => some (b2.castle_rook c dir)) =
      some (bend, r) := h
  clear h
  rcases hpath : Position.path fr (.Straight dir 2 .Regular) with _ | res
  · rw [hpath] at h'
    simp at h'
  · rcases res with e0 | interior
    · exact absurd hpath (path_straight_no_error fr dir 2 .Regular e0)
    · rw [hpath] at h'
      dsimp only at h'
      have hint := path_straight_two fr dir .Regular interior hpath
      subst hint
      have hl : ([castleTransit fr dir] ++ [fr]) = [castleTransit fr dir, fr] := rfl
      rw [hl] at h'
      rw [show castleChecksAux fr c b [castleTransit fr dir, fr] =
          (match b.resolve_check fr (castleTransit fr dir) c with
          | none => none
          | some (b1, .error e) => some (b1, Except.error e)
          | some (b1, .ok _) =>
            match b1.resolve_check fr fr c with
            | none => none
            | some (b2, .error e) => some (b2, Except.error e)
            | some (b2, .ok _) => some (b2, Except.ok ())) from rfl] at h'
      rcases hrc1 : b.resolve_check fr (castleTransit fr dir) c with _ | pr1
      · rw [hrc1] at h'
        simp at h'
      · rcases pr1 with ⟨bm, r1⟩
        rw [hrc1] at h'
        rcases r1 with e1 | u1
        · dsimp only at h'
          injection h' with h1
          injection h1 with hb hr
          subst hb
          subst hr
          refine ⟨fun hok => Except.noConfusion hok, fun e he => ?_⟩
          injection he with he'
          subst he'
          exact Or.inl ⟨bm, hrc1⟩
        · cases u1
          dsimp only at h'
          rcases hrc2 : bm.resolve_check fr fr c with _ | pr2
          · rw [hrc2] at h'
            simp at h'
          · rcases pr2 with ⟨b2, r2⟩
            rw [hrc2] at h'
            rcases r2 with e2 | u2
            · dsimp only at h'
              injection h' with h1
              injection h1 with hb hr
              subst hb
              subst hr
              refine ⟨fun hok => Except.noConfusion hok, fun e he => ?_⟩
              injection he with he'
              subst he'
              exact Or.inr (Or.inl ⟨bm, b2, hrc1, hrc2⟩)
            · cases u2
              dsimp only at h'
              -- the placement survives both simulations
              have hpm := resolve_check_preserves b fr (castleTransit fr dir) c
                (.King c 0) hk (fun hf => hf) bm (.ok ()) hrc1
              have hkm : lookupP bm.pieces fr = some (.King c 0) :=
                (hpm.1 fr).trans hk
              have hp2 := resolve_check_preserves bm fr fr c
                (.King c 0) hkm (fun hf => hf) b2 (.ok ()) hrc2
              have hpt : ∀ q, lookupP b2.pieces q = lookupP b.pieces q :=
                fun q => (hp2.1 q).trans (hpm.1 q)
              cases c <;> cases dir
              · -- White, Up: the rook table rejects vertical directions
                injection h' with h1
                have h2 : ((b2, Except.error CatchAllError.BadCastle) :
                    Board × Except CatchAllError Unit) = (bend, r) := h1
                injection h2 with hb hr
                subst hb
                subst hr
                refine ⟨fun hok => Except.noConfusion hok, fun e he => ?_⟩
                injection he with he'
                subst he'
                exact Or.inr (Or.inr rfl)
              · -- White, Right: rook h1 to f1
                injection h' with h1
                have hspec := castleRookGo_spec b2 ⟨7, 0⟩ ⟨5, 0⟩ bend r (by decide) h1
                constructor
                · intro hok
                  obtain ⟨c2, hcor, hfree, hland, hcorN⟩ := hspec.1 hok
                  exact ⟨Or.inr rfl, ⟨c2, (hpt ⟨7, 0⟩).symm.trans hcor, hland, hcorN⟩,
                    bm, b2, hrc1, hrc2, hpt, hfree⟩
                · intro e he
                  exact Or.inr (Or.inr (hspec.2 e he))
              · -- White, Down
                injection h' with h1
                have h2 : ((b2, Except.error CatchAllError.BadCastle) :
                    Board × Except CatchAllError Unit) = (bend, r) := h1
                injection h2 with hb hr
                subst hb
                subst hr
                refine ⟨fun hok => Except.noConfusion hok, fun e he => ?_⟩
                injection he with he'
                subst he'
                exact Or.inr (Or.inr rfl)
              · -- White, Left: rook a1 to d1
                injection h' with h1
                have hspec := castleRookGo_spec b2 ⟨0, 0⟩ ⟨3, 0⟩ bend r (by decide) h1
                constructor
                · intro hok
                  obtain ⟨c2, hcor, hfree, hland, hcorN⟩ := hspec.1 hok
                  exact ⟨Or.inl rfl, ⟨c2, (hpt ⟨0, 0⟩).symm.trans hcor, hland, hcorN⟩,
                    bm, b2, hrc1, hrc2, hpt, hfree⟩
                · intro e he
                  exact Or.inr (Or.inr (hspec.2 e he))
              · -- Black, Up
                injection h' with h1
                have h2 : ((b2, Except.error CatchAllError.BadCastle) :
                    Board × Except CatchAllError Unit) = (bend, r) := h1
                injection h2 with hb hr
                subst hb
                subst hr
                refine ⟨fun hok => Except.noConfusion hok, fun e he => ?_⟩
                injection he with he'
                subst he'
                exact Or.inr (Or.inr rfl)
              · -- Black, Right: rook h8 to f8
                injection h' with h1
                have hspec := castleRookGo_spec b2 ⟨7, 7⟩ ⟨5, 7⟩ bend r (by decide) h1
                constructor
                · intro hok
                  obtain ⟨c2, hcor, hfree, hland, hcorN⟩ := hspec.1 hok
                  exact ⟨Or.inr rfl, ⟨c2, (hpt ⟨7, 7⟩).symm.trans hcor, hland, hcorN⟩,
                    bm, b2, hrc1, hrc2, hpt, hfree⟩
                · intro e he
                  exact Or.inr (Or.inr (hspec.2 e he))
              · -- Black, Down
                injection h' with h1
                have h2 : ((b2, Except.error CatchAllError.BadCastle) :
                    Board × Except CatchAllError Unit) = (bend, r) := h1
                injection h2 with hb hr
                subst hb
                subst hr
                refine ⟨fun hok => Except.noConfusion hok, fun e he => ?_⟩
                injection he with he'
                subst he'
                exact Or.inr (Or.inr rfl)
              · -- Black, Left: rook a8 to d8
                injection h' with h1
                have hspec := castleRookGo_spec b2 ⟨0, 7⟩ ⟨3, 7⟩ bend r (by decide) h1
                constructor
                · intro hok
                  obtain ⟨c2, hcor, hfree, hland, hcorN⟩ := hspec.1 hok
                  exact ⟨Or.inl rfl, ⟨c2, (hpt ⟨0, 7⟩).symm.trans hcor, hland, hcorN⟩,
                    bm, b2, hrc1, hrc2, hpt, hfree⟩
                · intro e he
                  exact Or.inr (Or.inr (hspec.2 e he))

/-- Witness for claim C7's amended theorem at a concrete input: the
successful queenside castling stage on `boardC7Q`. -/
theorem c7_castle_stage_spec_witness :
    castleSuccessSpec boardC7Q boardC7Qafter .White .Left ⟨4, 0⟩ :=
  (c7_castle_stage_spec boardC7Q boardC7Qafter .White .Left ⟨4, 0⟩ (.ok ())
    (by rfl) (by rfl)).1 rfl

end Chess
